import Mathlib

/-!
Verification development for the orchestra step-sequencer application.

The definitions below are a shallow embedding of the TypeScript source:
the `OrchestraBuilder` component state and its mutation handlers
(`addTrack`, `removeTrack`, `addNote`, `clearTrack`,
`updateTrackInstrument`, `updateTrackVolume`, `toggleTrackMute`,
`togglePlayback`, the `createSequence` tick callback, the unmount
cleanup effect) and the pitch utilities from `music-utils`
(`midiToNoteName`, `noteNameToMidi`).
-/

set_option maxRecDepth 4000

namespace Orchestra

/-- Musical duration enum from `lib/types` (`NoteDuration`):
whole, half, quarter, eighth, sixteenth. -/
inductive NoteDuration where
  | whole
  | half
  | quarter
  | eighth
  | sixteenth
deriving DecidableEq, Repr

/-- A note as placed on a track: `{ step, pitch, duration }`.  The
`duration` field is optional at the JavaScript runtime level (the
sequencer's duration switch has a `default` arm for an unspecified
value), so it is embedded as `Option NoteDuration` with `none`
standing for an unspecified/unrecognized duration. -/
structure Note where
  step : Nat
  pitch : String
  duration : Option NoteDuration
deriving DecidableEq, Repr

/-- A track: `{ id, instrument, notes, volume, muted }`. -/
structure Track where
  id : String
  instrument : String
  notes : List Note
  volume : Int
  muted : Bool
deriving DecidableEq, Repr

/-- The inner synth type wrapped in `Tone.PolySynth` by the instrument
switch: `Tone.Synth`, `Tone.AMSynth`, `Tone.FMSynth`, `Tone.MonoSynth`,
`Tone.MembraneSynth`. -/
inductive VoiceFamily where
  | synth
  | amSynth
  | fmSynth
  | monoSynth
  | membraneSynth
deriving DecidableEq, Repr

/-- A live synth (Voice) held in `synthsRef.current[id]`.
`triggerable` models `typeof synth.triggerAttackRelease === "function"`;
`disposeThrows` models whether calling `releaseAll`/`dispose` on this
voice throws (e.g. double-dispose of a torn-down engine). -/
structure Voice where
  family : VoiceFamily
  volume : Int
  triggerable : Bool
  disposeThrows : Bool
deriving DecidableEq, Repr

/-- State of the shared `Tone.Transport` clock. -/
inductive TransportState where
  | stopped
  | started
  | paused
deriving DecidableEq, Repr

/-- The component state of `OrchestraBuilder` together with the
relevant `Tone.Transport` / refs state:
`tracks`, `currentTrackId`, `isPlaying`, `bpm`, `currentStep`,
`totalSteps` (React state); `synths` embeds `synthsRef.current` as an
association list (JavaScript objects preserve insertion order);
`sequencer` embeds `sequencerRef.current` (carrying the step count the
sequence was built with); `transportPosition` / `transportState` /
`loopEnabled` embed the `Tone.Transport` singleton;
`audioContextRunning` embeds `Tone.context.state === "running"`;
`log` collects `console.error` messages from caught exceptions. -/
structure OrchestraState where
  tracks : List Track
  currentTrackId : String
  isPlaying : Bool
  bpm : Nat
  currentStep : Nat
  totalSteps : Nat
  synths : List (String × Voice)
  sequencer : Option Nat
  transportPosition : Nat
  transportState : TransportState
  loopEnabled : Bool
  audioContextRunning : Bool
  log : List String
deriving DecidableEq, Repr

/-- Initial component state: one track with id "1", piano, no notes,
volume 0, not muted; `currentTrackId = "1"`; transport stopped. -/
def initialState : OrchestraState where
  tracks := [{ id := "1", instrument := "piano", notes := [], volume := 0, muted := false }]
  currentTrackId := "1"
  isPlaying := false
  bpm := 120
  currentStep := 0
  totalSteps := 16
  synths := []
  sequencer := none
  transportPosition := 0
  transportState := .stopped
  loopEnabled := false
  audioContextRunning := false
  log := []

/-- Case labels of the instrument switch: keyboard group. -/
def keyboardInstruments : List String := ["piano", "harpsichord", "organ", "synthesizer"]

/-- Case labels of the instrument switch: string group. -/
def stringInstruments : List String := ["violin", "viola", "cello", "guitar", "harp"]

/-- Case labels of the instrument switch: woodwind group. -/
def woodwindInstruments : List String := ["flute", "clarinet", "oboe", "bassoon"]

/-- Case labels of the instrument switch: brass group. -/
def brassInstruments : List String := ["trumpet", "trombone", "french horn", "tuba"]

/-- Case labels of the instrument switch: percussion group. -/
def percussionInstruments : List String := ["drums", "timpani", "xylophone", "marimba"]

/-- All instrument identifiers appearing as explicit case labels in the
instrument switch. -/
def listedInstruments : List String :=
  keyboardInstruments ++ stringInstruments ++ woodwindInstruments ++
    brassInstruments ++ percussionInstruments

/-- The `switch (track.instrument)` statements of the synth-creation
code (both in the initialization effect and in `updateTrackInstrument`):
maps an instrument identifier to the inner synth type, with a `default`
arm producing `Tone.PolySynth(Tone.Synth)` for anything unlisted. -/
def instrumentSynthFamily (instrument : String) : VoiceFamily :=
  if instrument ∈ keyboardInstruments then .synth
  else if instrument ∈ stringInstruments then .amSynth
  else if instrument ∈ woodwindInstruments then .fmSynth
  else if instrument ∈ brassInstruments then .monoSynth
  else if instrument ∈ percussionInstruments then .membraneSynth
  else .synth

/-- Look up the live voice registered for a track id in the synth
registry (`synthsRef.current[id]`). -/
def findSynth (synths : List (String × Voice)) (id : String) : Option Voice :=
  (synths.find? (fun p => p.1 == id)).map (fun p => p.2)

/-- Store a voice under a track id (`synthsRef.current[id] = synth`):
replaces an existing entry in place, otherwise appends. -/
def setSynth (synths : List (String × Voice)) (id : String) (v : Voice) :
    List (String × Voice) :=
  if (synths.find? (fun p => p.1 == id)).isSome then
    synths.map (fun p => if p.1 == id then (id, v) else p)
  else
    synths ++ [(id, v)]

/-- The guarded disposal block used by `removeTrack` and
`updateTrackInstrument`:
`try { synth.releaseAll(); synth.dispose(); delete synthsRef.current[id] } catch (e) { console.error(...) }`.
If the voice's disposal throws, the error is caught and logged and —
because the `delete` statement comes after the throwing call inside the
`try` — the registry entry is left in place.  Absent entry: no-op. -/
def disposeSynthEntry (id : String) (s : OrchestraState) : OrchestraState :=
  match s.synths.find? (fun p => p.1 == id) with
  | none => s
  | some pv =>
    if pv.2.disposeThrows then
      { s with log := s.log ++ ["Error disposing synth for track " ++ id] }
    else
      { s with synths := s.synths.filter (fun p => !(p.1 == id)) }

/-- The `addTrack` handler: appends a track whose id is
`(tracks.length + 1).toString()`, instrument "piano", empty notes,
volume 0, unmuted, and selects it as the current track. -/
def addTrack (s : OrchestraState) : OrchestraState :=
  let newTrackId := toString (s.tracks.length + 1)
  { s with
    tracks := s.tracks ++
      [{ id := newTrackId, instrument := "piano", notes := [], volume := 0, muted := false }]
    currentTrackId := newTrackId }

/-- Placeholder track used to embed the JavaScript expression
`remainingTracks[0].id`; the source accesses index 0 unconditionally,
which only behaves when the remaining list is non-empty. -/
def defaultTrack : Track where
  id := ""
  instrument := "piano"
  notes := []
  volume := 0
  muted := false

/-- The `removeTrack(id)` handler: refuses when `tracks.length <= 1`;
otherwise disposes the track's synth (guarded), removes the track from
the list, and — when the removed track was the current one — selects
`remainingTracks[0]`. -/
def removeTrack (id : String) (s : OrchestraState) : OrchestraState :=
  if s.tracks.length ≤ 1 then s
  else
    let s1 := disposeSynthEntry id s
    let remaining := s1.tracks.filter (fun t => !(t.id == id))
    { s1 with
      tracks := remaining
      currentTrackId :=
        if s1.currentTrackId == id then (remaining.headD defaultTrack).id
        else s1.currentTrackId }

/-- The `updateTrackInstrument(id, instrument)` handler: disposes the
old synth (guarded), rewrites the track's instrument, allocates a new
synth of the family given by the instrument switch, applies the track's
current volume (read from the pre-update track list; 0 when the track
is absent, matching the synth's default volume), and stores it. -/
def updateTrackInstrument (id : String) (instrument : String)
    (s : OrchestraState) : OrchestraState :=
  let s1 := disposeSynthEntry id s
  let tracks1 := s1.tracks.map (fun t =>
    if t.id == id then { t with instrument := instrument } else t)
  let vol : Int :=
    match s1.tracks.find? (fun t => t.id == id) with
    | some t => t.volume
    | none => 0
  { s1 with
    tracks := tracks1
    synths := setSynth s1.synths id
      { family := instrumentSynthFamily instrument, volume := vol,
        triggerable := true, disposeThrows := false } }

/-- The `updateTrackVolume(id, volume)` handler. -/
def updateTrackVolume (id : String) (volume : Int) (s : OrchestraState) :
    OrchestraState :=
  { s with
    tracks := s.tracks.map (fun t =>
      if t.id == id then { t with volume := volume } else t)
    synths := match findSynth s.synths id with
      | some _ => s.synths.map (fun p =>
          if p.1 == id then (p.1, { p.2 with volume := volume }) else p)
      | none => s.synths }

/-- The `toggleTrackMute(id)` handler. -/
def toggleTrackMute (id : String) (s : OrchestraState) : OrchestraState :=
  { s with
    tracks := s.tracks.map (fun t =>
      if t.id == id then { t with muted := !t.muted } else t) }

/-- The note-matching test used by `addNote`:
`note.step === step && note.pitch === pitch`. -/
def keyMatches (step : Nat) (pitch : String) (n : Note) : Bool :=
  n.step == step && n.pitch == pitch

/-- The `addNote(trackId, step, pitch, duration)` handler — the note
toggle: finds the track; if a note with the same `(step, pitch)`
exists there, filters out every matching note; otherwise appends a new
note with the given duration.  Unknown track id: no-op. -/
def addNote (trackId : String) (step : Nat) (pitch : String)
    (duration : NoteDuration) (s : OrchestraState) : OrchestraState :=
  match s.tracks.find? (fun t => t.id == trackId) with
  | none => s
  | some track =>
    let noteExists := track.notes.any (keyMatches step pitch)
    if noteExists then
      { s with tracks := s.tracks.map (fun t =>
          if t.id == trackId then
            { t with notes := t.notes.filter (fun n => !keyMatches step pitch n) }
          else t) }
    else
      { s with tracks := s.tracks.map (fun t =>
          if t.id == trackId then
            { t with notes := t.notes ++ [{ step := step, pitch := pitch, duration := some duration }] }
          else t) }

/-- The `clearTrack(trackId)` handler. -/
def clearTrack (trackId : String) (s : OrchestraState) : OrchestraState :=
  { s with
    tracks := s.tracks.map (fun t =>
      if t.id == trackId then { t with notes := [] } else t) }

/-- The duration switch inside the sequence tick callback, converting a
note's duration to a Tone.js duration value; the `default` arm yields
"8n". -/
def durationToTone (duration : Option NoteDuration) : String :=
  match duration with
  | some .whole => "1n"
  | some .half => "2n"
  | some .quarter => "4n"
  | some .eighth => "8n"
  | some .sixteenth => "16n"
  | none => "8n"

/-- Modelled from the spec: the clock-relative length, in beats, of a
Tone.js duration value ("1n" is a whole note = 4 beats, "2n" = 2,
"4n" = 1, "8n" = 1/2, "16n" = 1/4), independent of the sequence
subdivision — this is the semantics the external Tone.js library gives
to the strings produced by `durationToTone`. -/
def toneBeats (d : String) : ℚ :=
  if d = "1n" then 4
  else if d = "2n" then 2
  else if d = "4n" then 1
  else if d = "8n" then 1 / 2
  else if d = "16n" then 1 / 4
  else 0

/-- One `triggerAttackRelease(pitch, duration, time)` call issued by
the tick callback, tagged with the track it was issued for. -/
structure Trigger where
  trackId : String
  pitch : String
  duration : String
deriving DecidableEq, Repr

/-- The per-track body of the sequence tick callback: a muted track
produces nothing; otherwise the track's notes are filtered to those
whose `step` equals the current step, and if any remain and the
track's synth is present and has a callable `triggerAttackRelease`,
one trigger is issued per filtered note (with the duration switch
applied); an absent or non-triggerable synth produces nothing. -/
def trackTriggers (synths : List (String × Voice)) (step : Nat)
    (t : Track) : List Trigger :=
  if t.muted then []
  else
    let notesToPlay := t.notes.filter (fun n => n.step == step)
    match findSynth synths t.id with
    | none => []
    | some v =>
      if notesToPlay.length > 0 ∧ v.triggerable then
        notesToPlay.map (fun n =>
          { trackId := t.id, pitch := n.pitch, duration := durationToTone n.duration })
      else []

/-- All triggers issued by one firing of the sequence tick callback at
a given step (the callback iterates over `tracks`). -/
def tickTriggers (s : OrchestraState) (step : Nat) : List Trigger :=
  s.tracks.flatMap (trackTriggers s.synths step)

/-- One firing of the sequence tick: only happens while the transport
is started; sets `currentStep` to the step index, advances the
transport position, and issues the step's triggers. -/
def applyTick (s : OrchestraState) : OrchestraState × List Trigger :=
  if s.transportState = .started then
    let step := s.transportPosition % s.totalSteps
    ({ s with currentStep := step, transportPosition := s.transportPosition + 1 },
      tickTriggers s step)
  else (s, [])

/-- Iterate the tick `n` times, discarding the triggers. -/
def stepTicks : Nat → OrchestraState → OrchestraState
  | 0, s => s
  | n + 1, s => stepTicks n (applyTick s).1

/-- The missing-synth fallback inside `togglePlayback` (lines 146-163):
any track without a registered synth gets a fresh
`Tone.PolySynth(Tone.Synth)` at the track's volume. -/
def ensureSynths (tracks : List Track) (synths : List (String × Voice)) :
    List (String × Voice) :=
  tracks.foldl (fun acc t =>
    if (findSynth acc t.id).isSome then acc
    else acc ++ [(t.id,
      { family := .synth, volume := t.volume, triggerable := true,
        disposeThrows := false })]) synths

/-- The `createSequence` helper: disposes any existing sequence and
builds a new one over `totalSteps` step indices at an "8n"
subdivision, started at offset 0. -/
def createSequence (s : OrchestraState) : OrchestraState :=
  { s with sequencer := some s.totalSteps }

/-- The `togglePlayback` handler.  First ensures the audio context is
running (`await Tone.start()`).  When playing: `Tone.Transport.pause()`
(the transport position and built sequence are retained) and
`isPlaying` is cleared.  When not playing: missing synths are
recreated, the sequence is rebuilt, the loop points are set, the
transport position is reset to 0, and the transport is started. -/
def togglePlayback (s : OrchestraState) : OrchestraState :=
  let s0 := { s with audioContextRunning := true }
  if s0.isPlaying then
    { s0 with transportState := .paused, isPlaying := false }
  else
    let s1 := { s0 with synths := ensureSynths s0.tracks s0.synths }
    let s2 := createSequence s1
    { s2 with
      loopEnabled := true
      transportPosition := 0
      transportState := .started
      isPlaying := true }

/-- The `resetPlayback` handler: `currentStep` back to 0 and, unless
the transport is stopped, the transport position back to 0. -/
def resetPlayback (s : OrchestraState) : OrchestraState :=
  let s1 := { s with currentStep := 0 }
  if s1.transportState ≠ .stopped then { s1 with transportPosition := 0 }
  else s1

/-- The unmount cleanup effect (whole-system teardown): stops the
transport if not already stopped; disposes every registered synth,
each inside its own `try/catch` (a throwing disposal is logged and
iteration continues); disposes the sequencer inside a `try/catch`; and
finally clears both refs unconditionally. -/
def teardown (s : OrchestraState) : OrchestraState :=
  let s1 :=
    if s.transportState ≠ .stopped then { s with transportState := .stopped }
    else s
  let disposalLogs := s1.synths.filterMap (fun p =>
    if p.2.disposeThrows then some "Error disposing synth:" else none)
  { s1 with
    synths := []
    sequencer := none
    log := s1.log ++ disposalLogs }

/-- A user-driven track/note mutation, as dispatched from the UI. -/
inductive Op where
  | opAddNote (trackId : String) (step : Nat) (pitch : String) (duration : NoteDuration)
  | opAddTrack
  | opRemoveTrack (id : String)
  | opClearTrack (id : String)
  | opSetInstrument (id : String) (instrument : String)
  | opSetVolume (id : String) (volume : Int)
  | opToggleMute (id : String)

/-- Apply one mutation operation to the state. -/
def applyOp : Op → OrchestraState → OrchestraState
  | .opAddNote trackId step pitch d, s => addNote trackId step pitch d s
  | .opAddTrack, s => addTrack s
  | .opRemoveTrack id, s => removeTrack id s
  | .opClearTrack id, s => clearTrack id s
  | .opSetInstrument id i, s => updateTrackInstrument id i s
  | .opSetVolume id v, s => updateTrackVolume id v s
  | .opToggleMute id, s => toggleTrackMute id s

/-- States reachable from the initial one-track state by any sequence
of track/note mutation operations. -/
inductive Reachable : OrchestraState → Prop where
  | init : Reachable initialState
  | step {s : OrchestraState} (o : Op) : Reachable s → Reachable (applyOp o s)

/-- The `(step, pitch)` identity key of a note. -/
def noteKey (n : Note) : Nat × String := (n.step, n.pitch)

/-- A track satisfies the no-duplicate-notes invariant when the
`(step, pitch)` keys of its notes are pairwise distinct. -/
def NoDupNotes (t : Track) : Prop := (t.notes.map noteKey).Nodup

/-- The whole-state no-duplicate-notes invariant. -/
def NoDupNotesInv (s : OrchestraState) : Prop :=
  ∀ t ∈ s.tracks, NoDupNotes t

end Orchestra

namespace MusicUtils

/-- Lower half (C through F) of the chromatic note-name table. -/
def noteNamesLow : List String := ["C", "C#", "D", "D#", "E", "F"]

/-- Upper half (F# through B) of the chromatic note-name table. -/
def noteNamesHigh : List String := ["F#", "G", "G#", "A", "A#", "B"]

/-- The chromatic note-name table shared by `midiToNoteName` and
`noteNameToMidi` (the source writes it as one twelve-element array
literal). -/
def noteNames : List String := noteNamesLow ++ noteNamesHigh

/-- `midiToNoteName(midi)`: note name = pitch class (from the table at
`midi % 12`) followed by the octave `floor(midi / 12) - 1`. -/
def midiToNoteName (midi : Nat) : String :=
  let octave : Int := Int.ofNat (midi / 12) - 1
  let noteIndex := midi % 12
  (noteNames.getD noteIndex "") ++ toString octave

/-- Character class `[-0-9]` of the octave group in the
`noteNameToMidi` regular expression. -/
def isOctaveChar (c : Char) : Bool := c == '-' || c.isDigit

/-- Matching attempt of the regular expression
`([A-G])(#|b)?([-0-9]+)` at one fixed position of the subject string:
a letter A-G, then a greedy optional accidental, then a greedy
non-empty run of octave characters.  (When the accidental is present
but no octave character follows, the no-accidental backtrack also
fails, because '#' and 'b' are not octave characters.) -/
def matchPitchAt : List Char → Option (Char × Option Char × List Char)
  | [] => none
  | c :: rest =>
    if 'A' ≤ c ∧ c ≤ 'G' then
      match rest with
      | a :: rest1 =>
        if a == '#' || a == 'b' then
          let run := rest1.takeWhile isOctaveChar
          if run.isEmpty then none else some (c, some a, run)
        else
          let run := rest.takeWhile isOctaveChar
          if run.isEmpty then none else some (c, none, run)
      | [] => none
    else none

/-- Leftmost match of the regular expression
`([A-G])(#|b)?([-0-9]+)` over the subject string, as
`String.prototype.match` computes it: positions are tried left to
right. -/
def findPitchMatch : List Char → Option (Char × Option Char × List Char)
  | [] => none
  | c :: rest =>
    match matchPitchAt (c :: rest) with
    | some m => some m
    | none => findPitchMatch rest

/-- Decimal value of a run of digit characters. -/
def digitsToNat (ds : List Char) : Nat :=
  ds.foldl (fun acc c => acc * 10 + (c.toNat - 48)) 0

/-- `Number.parseInt` restricted to the strings the octave capture
group can produce (runs over `[-0-9]`): an optional leading minus sign
followed by the longest prefix of digits; no digits gives `NaN`,
embedded as `none`. -/
def parseIntJS : List Char → Option Int
  | [] => none
  | '-' :: rest =>
    let ds := rest.takeWhile Char.isDigit
    if ds.isEmpty then none else some (-(digitsToNat ds : Int))
  | l =>
    let ds := l.takeWhile Char.isDigit
    if ds.isEmpty then none else some (digitsToNat ds)

/-- `noteNameToMidi(noteName)`: matches the pitch-name pattern; on no
match returns 60 (middle C); otherwise computes the chromatic index of
the letter, adjusts it by the accidental, and returns
`(parseInt(octave) + 1) * 12 + noteIndex`.  A `NaN` arithmetic result
(octave capture with no digits) is embedded as `none`. -/
def noteNameToMidi (noteName : String) : Option Int :=
  match findPitchMatch noteName.data with
  | none => some 60
  | some (note, accidental, octaveChars) =>
    let base : Int := noteNames.indexOf (String.mk [note])
    let idx : Int := base +
      (if accidental = some '#' then 1 else 0) -
      (if accidental = some 'b' then 1 else 0)
    match parseIntJS octaveChars with
    | none => none
    | some oct => some ((oct + 1) * 12 + idx)

end MusicUtils

namespace Orchestra

/-- Replacing the entry for an id that is present puts the new pair
where the first lookup finds it. -/
theorem find?_set_of_mem (id : String) (v : Voice) :
    ∀ l : List (String × Voice),
      (l.find? (fun p => p.1 == id)).isSome →
      (l.map (fun p => if p.1 == id then (id, v) else p)).find?
        (fun p => p.1 == id) = some (id, v)
  | [], h => by simp at h
  | p :: ps, h => by
    by_cases hp : (p.1 == id) = true
    · have hpe : p.1 = id := by simpa using hp
      simp [List.map_cons, hpe, List.find?_cons]
    · have hp2 : (p.1 == id) = false := by simpa using hp
      simp only [List.map_cons, hp2, Bool.false_eq_true, if_false]
      simp only [List.find?_cons, hp2]
      apply find?_set_of_mem
      simp only [List.find?_cons, hp2] at h
      exact h

/-- Appending a pair for an id that is absent makes the lookup find
the appended pair. -/
theorem find?_append_fresh (id : String) (v : Voice) :
    ∀ l : List (String × Voice),
      l.find? (fun p => p.1 == id) = none →
      (l ++ [(id, v)]).find? (fun p => p.1 == id) = some (id, v)
  | [], _ => by simp
  | p :: ps, h => by
    have hp : (p.1 == id) = false := by
      cases hfp : (p.1 == id) with
      | false => rfl
      | true => simp [List.find?_cons, hfp] at h
    simp only [List.find?_cons, hp] at h
    simp only [List.cons_append, List.find?_cons, hp]
    exact find?_append_fresh id v ps h

/-- Looking up a just-stored voice yields exactly that voice. -/
theorem findSynth_setSynth (synths : List (String × Voice)) (id : String)
    (v : Voice) : findSynth (setSynth synths id v) id = some v := by
  unfold findSynth setSynth
  by_cases h : (synths.find? (fun p => p.1 == id)).isSome
  · rw [if_pos h, find?_set_of_mem id v synths h]
    rfl
  · rw [if_neg h, find?_append_fresh id v synths
      (Option.not_isSome_iff_eq_none.mp h)]
    rfl

/-- Guarded disposal never changes the track list or the selection. -/
theorem disposeSynthEntry_tracks (id : String) (s : OrchestraState) :
    (disposeSynthEntry id s).tracks = s.tracks ∧
    (disposeSynthEntry id s).currentTrackId = s.currentTrackId ∧
    (disposeSynthEntry id s).totalSteps = s.totalSteps := by
  unfold disposeSynthEntry
  split
  · exact ⟨rfl, rfl, rfl⟩
  · split
    · exact ⟨rfl, rfl, rfl⟩
    · exact ⟨rfl, rfl, rfl⟩

/-- No entry keyed by `id` survives filtering out the key `id`. -/
theorem findSynth_after_filter (id : String) (l : List (String × Voice)) :
    findSynth (l.filter (fun p => !(p.1 == id))) id = none := by
  unfold findSynth
  rw [List.find?_eq_none.mpr]
  · rfl
  · intro x hx
    have hq := List.of_mem_filter hx
    simpa using hq

/-- Guarded disposal of a voice whose `dispose` does not throw removes
its registry entry. -/
theorem disposeSynthEntry_removes (id : String) (s : OrchestraState)
    (v : Voice) (hf : findSynth s.synths id = some v)
    (hthrow : v.disposeThrows = false) :
    findSynth (disposeSynthEntry id s).synths id = none := by
  unfold findSynth at hf
  unfold disposeSynthEntry
  cases h : s.synths.find? (fun p => p.1 == id) with
  | none => rw [h] at hf; exact absurd hf (by simp)
  | some pv =>
    rw [h] at hf
    have hv : pv.2 = v := by simpa using hf
    have hcond : ¬(pv.2.disposeThrows = true) := by simp [hv, hthrow]
    dsimp only
    rw [if_neg hcond]
    exact findSynth_after_filter id s.synths

/-- Guarded disposal of a voice whose `dispose` throws logs the error
and leaves the synth registry as it was. -/
theorem disposeSynthEntry_throw_logs (id : String) (s : OrchestraState)
    (v : Voice) (hf : findSynth s.synths id = some v)
    (hthrow : v.disposeThrows = true) :
    (disposeSynthEntry id s).synths = s.synths ∧
    (disposeSynthEntry id s).log =
      s.log ++ ["Error disposing synth for track " ++ id] := by
  unfold findSynth at hf
  unfold disposeSynthEntry
  cases h : s.synths.find? (fun p => p.1 == id) with
  | none => rw [h] at hf; exact absurd hf (by simp)
  | some pv =>
    rw [h] at hf
    have hv : pv.2 = v := by simpa using hf
    dsimp only
    rw [if_pos (show pv.2.disposeThrows = true by rw [hv]; exact hthrow)]
    exact ⟨rfl, rfl⟩

/-- A non-last `removeTrack` leaves exactly the other tracks, whatever
the disposal outcome. -/
theorem removeTrack_tracks (id : String) (s : OrchestraState)
    (h : ¬ s.tracks.length ≤ 1) :
    (removeTrack id s).tracks = s.tracks.filter (fun t => !(t.id == id)) := by
  unfold removeTrack
  rw [if_neg h]
  exact congrArg (List.filter _) (disposeSynthEntry_tracks id s).1

/-- The synth registry after a non-last `removeTrack` is the one the
guarded disposal produced. -/
theorem removeTrack_synths (id : String) (s : OrchestraState)
    (h : ¬ s.tracks.length ≤ 1) :
    (removeTrack id s).synths = (disposeSynthEntry id s).synths := by
  unfold removeTrack
  rw [if_neg h]

/-- The log after a non-last `removeTrack` is the one the guarded
disposal produced. -/
theorem removeTrack_log (id : String) (s : OrchestraState)
    (h : ¬ s.tracks.length ≤ 1) :
    (removeTrack id s).log = (disposeSynthEntry id s).log := by
  unfold removeTrack
  rw [if_neg h]

/-- Selection after a non-last `removeTrack`: unchanged when the
removed track was not selected, otherwise the head of the remaining
list. -/
theorem removeTrack_current (id : String) (s : OrchestraState)
    (h : ¬ s.tracks.length ≤ 1) :
    (removeTrack id s).currentTrackId =
      if s.currentTrackId == id then
        ((s.tracks.filter (fun t => !(t.id == id))).headD defaultTrack).id
      else s.currentTrackId := by
  unfold removeTrack
  rw [if_neg h]
  obtain ⟨ht, hc, -⟩ := disposeSynthEntry_tracks id s
  rw [show ({ disposeSynthEntry id s with
      tracks := (disposeSynthEntry id s).tracks.filter (fun t => !(t.id == id)),
      currentTrackId :=
        if (disposeSynthEntry id s).currentTrackId == id then
          (((disposeSynthEntry id s).tracks.filter
            (fun t => !(t.id == id))).headD defaultTrack).id
        else (disposeSynthEntry id s).currentTrackId } : OrchestraState).currentTrackId =
      if (disposeSynthEntry id s).currentTrackId == id then
        (((disposeSynthEntry id s).tracks.filter
          (fun t => !(t.id == id))).headD defaultTrack).id
      else (disposeSynthEntry id s).currentTrackId from rfl, ht, hc]

/-- C5 — confirmed.  `removeTrack` on the last remaining track is
refused outright (the state is untouched); otherwise the track is
removed, its voice's registry entry is released (when disposal does
not throw), and the selection is repaired: if the removed track was
selected, the first remaining track is selected — so the selection
refers to a live track — and otherwise the selection is untouched. -/
theorem removeTrack_spec :
    ∀ (id : String) (s : OrchestraState),
      (s.tracks.length = 1 → removeTrack id s = s) ∧
      (2 ≤ s.tracks.length →
        (removeTrack id s).tracks = s.tracks.filter (fun t => !(t.id == id)) ∧
        (∀ v : Voice, findSynth s.synths id = some v →
          v.disposeThrows = false →
          findSynth (removeTrack id s).synths id = none) ∧
        (s.currentTrackId = id →
          s.tracks.filter (fun t => !(t.id == id)) ≠ [] →
          (removeTrack id s).currentTrackId ∈
            ((removeTrack id s).tracks.map Track.id)) ∧
        (s.currentTrackId ≠ id →
          (removeTrack id s).currentTrackId = s.currentTrackId)) := by
  intro id s
  constructor
  · intro h1
    unfold removeTrack
    rw [if_pos (by omega)]
  · intro h2
    have h : ¬ s.tracks.length ≤ 1 := by omega
    refine ⟨removeTrack_tracks id s h, ?_, ?_, ?_⟩
    · intro v hf hthrow
      rw [removeTrack_synths id s h]
      exact disposeSynthEntry_removes id s v hf hthrow
    · intro hcur hne
      rw [removeTrack_current id s h, if_pos (by simp [hcur]),
        removeTrack_tracks id s h]
      cases hrem : s.tracks.filter (fun t => !(t.id == id)) with
      | nil => exact absurd hrem hne
      | cons a as =>
        simp only [List.headD_cons]
        exact List.mem_map_of_mem Track.id (List.mem_cons_self a as)
    · intro hcur
      rw [removeTrack_current id s h, if_neg (by simp [hcur])]

/-- C5 — witness for `removeTrack_spec`: from the initial single-track
state, removing the only track "1" is refused; from the two-track
state after one `addTrack`, removing the selected track "2" leaves
track "1" selected and live. -/
theorem removeTrack_spec_witness :
    removeTrack "1" initialState = initialState ∧
    (removeTrack "2" (addTrack initialState)).tracks =
      (addTrack initialState).tracks.filter (fun t => !(t.id == "2")) ∧
    (removeTrack "2" (addTrack initialState)).currentTrackId ∈
      ((removeTrack "2" (addTrack initialState)).tracks.map Track.id) :=
  ⟨(removeTrack_spec "1" initialState).1 (by decide),
    ((removeTrack_spec "2" (addTrack initialState)).2 (by decide)).1,
    ((removeTrack_spec "2" (addTrack initialState)).2 (by decide)).2.2.1
      (by decide) (by decide)⟩

/-- C9 — confirmed.  A throwing voice disposal is caught and logged
and never aborts the caller: a non-last `removeTrack` always removes
the track (and, when the disposal throws, appends one log entry and
leaves the registry as it was); whole-system teardown always ends with
the transport stopped, every disposal attempted (throwers logged), and
both refs cleared. -/
theorem disposal_errors_contained :
    (∀ (id : String) (s : OrchestraState), 2 ≤ s.tracks.length →
      (removeTrack id s).tracks = s.tracks.filter (fun t => !(t.id == id))) ∧
    (∀ (id : String) (s : OrchestraState) (v : Voice),
      2 ≤ s.tracks.length → findSynth s.synths id = some v →
      v.disposeThrows = true →
      (removeTrack id s).log =
        s.log ++ ["Error disposing synth for track " ++ id]) ∧
    (∀ s : OrchestraState,
      (teardown s).synths = [] ∧
      (teardown s).sequencer = none ∧
      (teardown s).transportState = TransportState.stopped ∧
      (teardown s).log = s.log ++ s.synths.filterMap (fun p =>
        if p.2.disposeThrows then some "Error disposing synth:" else none)) := by
  refine ⟨?_, ?_, ?_⟩
  · intro id s h2
    exact removeTrack_tracks id s (by omega)
  · intro id s v h2 hf hthrow
    rw [removeTrack_log id s (by omega)]
    exact (disposeSynthEntry_throw_logs id s v hf hthrow).2
  · intro s
    unfold teardown
    split
    · exact ⟨rfl, rfl, rfl, rfl⟩
    · rename_i hstop
      refine ⟨rfl, rfl, ?_, rfl⟩
      simpa using hstop

/-- C9 — witness for `disposal_errors_contained`: a two-track state
whose voice for track "2" throws on disposal still loses track "2" and
logs the error, and teardown of that state clears everything. -/
theorem disposal_errors_contained_witness :
    (removeTrack "2" { (addTrack initialState) with
        synths :=
          [("2",
            { family := .synth, volume := 0, triggerable := true,
              disposeThrows := true })] }).tracks =
      (addTrack initialState).tracks.filter (fun t => !(t.id == "2")) ∧
    (removeTrack "2" { (addTrack initialState) with
        synths :=
          [("2",
            { family := .synth, volume := 0, triggerable := true,
              disposeThrows := true })] }).log =
      [] ++ ["Error disposing synth for track " ++ "2"] ∧
    (teardown initialState).synths = [] :=
  ⟨disposal_errors_contained.1 "2" _ (by decide),
    disposal_errors_contained.2.1 "2" _
      { family := .synth, volume := 0, triggerable := true,
        disposeThrows := true }
      (by decide) (by decide) (by decide),
    (disposal_errors_contained.2.2 initialState).1⟩

/-- C1 — corrected.  `addTrack` appends a track whose id is the
decimal string of (current track count + 1), with default instrument
"piano", empty notes, volume 0, unmuted, and selects it as current; in
Scenario A (from the initial single-track state with id "1") this
yields track count 2 and the new id "2" ≠ "1".  The id is computed
from the current track count only, so it is not guaranteed distinct
from ids issued earlier in the session once a removal has occurred
(see the counterexample). -/
theorem addTrack_appends_and_selects :
    (∀ s : OrchestraState,
      (addTrack s).tracks = s.tracks ++
        [{ id := toString (s.tracks.length + 1), instrument := "piano",
           notes := [], volume := 0, muted := false }] ∧
      (addTrack s).currentTrackId = toString (s.tracks.length + 1)) ∧
    ((addTrack initialState).tracks.length = 2 ∧
      (addTrack initialState).currentTrackId = "2" ∧
      (addTrack initialState).currentTrackId ≠ "1") :=
  ⟨fun _ => ⟨rfl, rfl⟩, by decide⟩

/-- C1 — counterexample to the claim as stated: in the session
`addTrack; removeTrack "1"; addTrack`, the second `addTrack` issues id
"2", which was already issued by the first `addTrack` (and is even the
id of a currently-live track), so the track list ends with two tracks
both named "2". -/
theorem addTrack_id_reuse_cex :
    ((addTrack (removeTrack "1" (addTrack initialState))).tracks.map Track.id) =
      ["2", "2"] ∧
    ¬ ((addTrack (removeTrack "1" (addTrack initialState))).tracks.map
        Track.id).Nodup := by
  decide

/-- C2 — corrected.  Pausing retains the transport position, the
current step and the built sequence; but starting again does not
resume from the retained position: `togglePlayback` rebuilds the
sequence and sets `Tone.Transport.position = 0`, so tick emission
restarts from step 0. -/
theorem togglePlayback_pause_resume :
    ∀ s : OrchestraState,
      (s.isPlaying = true →
        (togglePlayback s).transportPosition = s.transportPosition ∧
        (togglePlayback s).currentStep = s.currentStep ∧
        (togglePlayback s).sequencer = s.sequencer ∧
        (togglePlayback s).isPlaying = false ∧
        (togglePlayback s).transportState = TransportState.paused) ∧
      (s.isPlaying = false →
        (togglePlayback s).transportPosition = 0 ∧
        (togglePlayback s).isPlaying = true ∧
        (togglePlayback s).transportState = TransportState.started) := by
  intro s
  constructor
  · intro h
    simp [togglePlayback, h]
  · intro h
    simp [togglePlayback, createSequence, h]

/-- C2 — witness for `togglePlayback_pause_resume`: concrete pause
after five ticks and a concrete start from the initial state. -/
theorem togglePlayback_pause_resume_witness :
    (togglePlayback (stepTicks 5 (togglePlayback initialState))).transportPosition =
      (stepTicks 5 (togglePlayback initialState)).transportPosition ∧
    (togglePlayback initialState).transportPosition = 0 :=
  ⟨((togglePlayback_pause_resume (stepTicks 5 (togglePlayback initialState))).1
      (by decide)).1,
    ((togglePlayback_pause_resume initialState).2 (by decide)).1⟩

/-- C2 — counterexample to the claim as stated: after playing five
ticks and pausing, the retained position is 5, but pressing play again
restarts with transport position 0 instead of resuming from 5. -/
theorem togglePlayback_resume_resets_cex :
    (togglePlayback (stepTicks 5 (togglePlayback initialState))).isPlaying = false ∧
    (togglePlayback (stepTicks 5 (togglePlayback initialState))).transportPosition = 5 ∧
    (togglePlayback (togglePlayback (stepTicks 5 (togglePlayback
      initialState)))).isPlaying = true ∧
    (togglePlayback (togglePlayback (stepTicks 5 (togglePlayback
      initialState)))).transportPosition = 0 := by
  decide

/-- Membership characterization of the per-track trigger list: a
trigger is issued for a track exactly when the track is unmuted, its
voice is present and triggerable, and the track has a note at the
current step producing that trigger. -/
theorem mem_trackTriggers (synths : List (String × Voice)) (step : Nat)
    (t : Track) (trg : Trigger) :
    trg ∈ trackTriggers synths step t ↔
      t.muted = false ∧
      (∃ v : Voice, findSynth synths t.id = some v ∧ v.triggerable = true) ∧
      ∃ n ∈ t.notes, n.step = step ∧
        trg = { trackId := t.id, pitch := n.pitch,
                duration := durationToTone n.duration } := by
  unfold trackTriggers
  cases hm : t.muted with
  | true => simp [hm]
  | false =>
    rw [if_neg (by simp [hm])]
    cases hv : findSynth synths t.id with
    | none => simp
    | some v =>
      dsimp only
      by_cases hc : (t.notes.filter (fun n => n.step == step)).length > 0 ∧
          v.triggerable
      · rw [if_pos hc]
        simp only [List.mem_map, List.mem_filter, beq_iff_eq]
        constructor
        · rintro ⟨n, ⟨hn, hstep⟩, rfl⟩
          exact ⟨by simp, ⟨v, rfl, hc.2⟩, n, hn, hstep, rfl⟩
        · rintro ⟨-, -, n, hn, hstep, rfl⟩
          exact ⟨n, ⟨hn, hstep⟩, rfl⟩
      · rw [if_neg hc]
        simp only [List.not_mem_nil, false_iff, not_and]
        intro _ hvt
        rintro ⟨n, hn, hstep, -⟩
        obtain ⟨v2, hv2, htrig⟩ := hvt
        have hveq : v2 = v := (Option.some_injective _ hv2).symm
        refine hc ⟨?_, by rw [← hveq]; exact htrig⟩
        have : n ∈ t.notes.filter (fun n => n.step == step) :=
          List.mem_filter.mpr ⟨hn, by simp [hstep]⟩
        exact List.length_pos.mpr (fun he => by rw [he] at this; exact List.not_mem_nil n this)

/-- C6 — confirmed.  A trigger is issued on a tick at step `s` exactly
for the notes with `step = s` of unmuted tracks whose voice is present
and triggerable at tick time; in particular muted tracks contribute no
triggers, and a track whose voice is absent or not triggerable
contributes no triggers for that tick — the notes are simply skipped,
with nothing queued, retried, or raised. -/
theorem tick_trigger_iff :
    ∀ (s : OrchestraState) (step : Nat) (trg : Trigger),
      trg ∈ tickTriggers s step ↔
        ∃ t ∈ s.tracks, t.muted = false ∧
          (∃ v : Voice, findSynth s.synths t.id = some v ∧
            v.triggerable = true) ∧
          ∃ n ∈ t.notes, n.step = step ∧
            trg = { trackId := t.id, pitch := n.pitch,
                    duration := durationToTone n.duration } := by
  intro s step trg
  unfold tickTriggers
  rw [List.mem_flatMap]
  constructor
  · rintro ⟨t, ht, hmem⟩
    exact ⟨t, ht, (mem_trackTriggers s.synths step t trg).mp hmem⟩
  · rintro ⟨t, ht, hprop⟩
    exact ⟨t, ht, (mem_trackTriggers s.synths step t trg).mpr hprop⟩

/-- A note matches the toggle key exactly when its `(step, pitch)`
identity equals the key. -/
theorem keyMatches_iff (step : Nat) (pitch : String) (n : Note) :
    keyMatches step pitch n = true ↔ noteKey n = (step, pitch) := by
  simp [keyMatches, noteKey, Prod.ext_iff]

/-- The note that a toggle inserts matches the toggle key. -/
theorem keyMatches_new (step : Nat) (pitch : String) (d : Option NoteDuration) :
    keyMatches step pitch { step := step, pitch := pitch, duration := d } = true := by
  simp [keyMatches]

/-- `find?` commutes with a map that does not change the predicate's
verdict. -/
theorem find?_map_pred {α : Type} (f : α → α) (p : α → Bool)
    (h : ∀ a, p (f a) = p a) :
    ∀ l : List α, (l.map f).find? p = (l.find? p).map f
  | [] => rfl
  | a :: l => by
    cases hp : p a with
    | true => simp [List.find?_cons, h a, hp]
    | false => simp [List.find?_cons, h a, hp, find?_map_pred f p h l]

/-- With pairwise-distinct track ids, any member matching the id
predicate is the track `find?` located. -/
theorem eq_find?_of_nodup_ids (trackId : String) (t₀ : Track) :
    ∀ (l : List Track), (l.map Track.id).Nodup →
      l.find? (fun t => t.id == trackId) = some t₀ →
      ∀ a ∈ l, (a.id == trackId) = true → a = t₀
  | [], _, hfind => by simp at hfind
  | b :: bs, hnd, hfind => by
    intro a ha hid
    cases hb : (b.id == trackId) with
    | true =>
      have hb0 : b = t₀ := by
        simp only [List.find?_cons, hb] at hfind
        exact Option.some.inj hfind
      rcases List.mem_cons.mp ha with rfl | hmem
      · exact hb0
      · exfalso
        have hids : a.id = b.id := by
          have h1 : a.id = trackId := by simpa using hid
          have h2 : b.id = trackId := by simpa using hb
          rw [h1, h2]
        have : b.id ∈ bs.map Track.id := hids ▸ List.mem_map_of_mem Track.id hmem
        exact (List.nodup_cons.mp (by simpa using hnd)).1 this
    | false =>
      simp only [List.find?_cons, hb] at hfind
      rcases List.mem_cons.mp ha with rfl | hmem
      · rw [hb] at hid; exact absurd hid (by simp)
      · exact eq_find?_of_nodup_ids trackId t₀ bs
          (List.nodup_cons.mp (by simpa using hnd)).2 hfind a hmem hid

/-- Pointwise relatedness with the image gives `Forall₂` with the
mapped list. -/
theorem forall₂_map_self {R : Track → Track → Prop} (g : Track → Track) :
    ∀ l : List Track, (∀ a ∈ l, R a (g a)) → List.Forall₂ R l (l.map g)
  | [], _ => List.Forall₂.nil
  | a :: l, h =>
    List.Forall₂.cons (h a (List.mem_cons_self a l))
      (forall₂_map_self g l (fun b hb => h b (List.mem_cons_of_mem a hb)))

/-- Toggling a note in at a fresh key and filtering it back out
restores the note list exactly. -/
theorem toggle_insert_then_remove (step : Nat) (pitch : String)
    (d : NoteDuration) (notes : List Note)
    (hex : notes.any (keyMatches step pitch) = false) :
    (notes ++ [({ step := step, pitch := pitch, duration := some d } : Note)]).filter
      (fun n => !keyMatches step pitch n) = notes := by
  rw [List.filter_append]
  have h1 : notes.filter (fun n => !keyMatches step pitch n) = notes := by
    rw [List.filter_eq_self]
    intro a ha
    have hna : ¬ keyMatches step pitch a = true := by
      have := List.any_eq_false.mp hex a ha
      simpa using this
    simpa using hna
  have h2 : List.filter (fun n => !keyMatches step pitch n)
      [({ step := step, pitch := pitch, duration := some d } : Note)] = [] := by
    simp [keyMatches]
  rw [h1, h2, List.append_nil]

/-- Under the no-duplicate invariant with a matching duration, the
matching notes of a toggled key are exactly the one note the toggle
would insert. -/
theorem filter_key_singleton (step : Nat) (pitch : String)
    (d : NoteDuration) (notes : List Note)
    (hex : notes.any (keyMatches step pitch) = true)
    (hone : (notes.filter (keyMatches step pitch)).length ≤ 1)
    (hdur : ∀ n ∈ notes, keyMatches step pitch n = true →
      n = { step := step, pitch := pitch, duration := some d }) :
    notes.filter (keyMatches step pitch) =
      [{ step := step, pitch := pitch, duration := some d }] := by
  obtain ⟨n, hn, hP⟩ := List.any_eq_true.mp hex
  have hnf : n ∈ notes.filter (keyMatches step pitch) :=
    List.mem_filter.mpr ⟨hn, hP⟩
  cases hfil : notes.filter (keyMatches step pitch) with
  | nil => rw [hfil] at hnf; exact absurd hnf (List.not_mem_nil n)
  | cons x xs =>
    have hxs : xs = [] := by
      rw [hfil] at hone
      simpa using List.length_eq_zero.mp (by simpa using hone)
    have hx : x ∈ notes.filter (keyMatches step pitch) := by
      rw [hfil]; exact List.mem_cons_self x xs
    have hx2 := List.mem_filter.mp hx
    rw [hxs, hdur x hx2.1 hx2.2]

/-- Toggling a present note out and back in restores the note list up
to permutation. -/
theorem toggle_remove_then_insert (step : Nat) (pitch : String)
    (d : NoteDuration) (notes : List Note)
    (hex : notes.any (keyMatches step pitch) = true)
    (hone : (notes.filter (keyMatches step pitch)).length ≤ 1)
    (hdur : ∀ n ∈ notes, keyMatches step pitch n = true →
      n = { step := step, pitch := pitch, duration := some d }) :
    List.Perm
      (notes.filter (fun n => !keyMatches step pitch n) ++
        [{ step := step, pitch := pitch, duration := some d }])
      notes := by
  have hsing := filter_key_singleton step pitch d notes hex hone hdur
  have h0 : List.Perm
      (notes.filter (fun n => !keyMatches step pitch n) ++
        [{ step := step, pitch := pitch, duration := some d }])
      ([({ step := step, pitch := pitch, duration := some d } : Note)] ++
        notes.filter (fun n => !keyMatches step pitch n)) :=
    List.perm_append_comm
  have h2 : List.Perm
      (notes.filter (keyMatches step pitch) ++
        notes.filter (fun n => !keyMatches step pitch n))
      notes :=
    List.filter_append_perm _ notes
  exact h0.trans (by rw [← hsing]; exact h2)

/-- The per-track transformation of the remove branch of `addNote`
(the body of its first `setTracks` call). -/
def remNote (trackId : String) (step : Nat) (pitch : String) (t : Track) : Track :=
  if t.id == trackId then { t with notes := t.notes.filter (fun n => !keyMatches step pitch n) } else t

/-- The per-track transformation of the insert branch of `addNote`
(the body of its second `setTracks` call). -/
def insNote (trackId : String) (step : Nat) (pitch : String) (d : NoteDuration) (t : Track) : Track :=
  if t.id == trackId then { t with notes := t.notes ++ [{ step := step, pitch := pitch, duration := some d }] } else t

/-- Unfolding of the insert branch of `addNote`. -/
theorem addNote_tracks_insert (trackId : String) (step : Nat)
    (pitch : String) (d : NoteDuration) (s : OrchestraState) (t₀ : Track)
    (hfind : s.tracks.find? (fun t => t.id == trackId) = some t₀)
    (hex : t₀.notes.any (keyMatches step pitch) = false) :
    (addNote trackId step pitch d s).tracks =
      s.tracks.map (insNote trackId step pitch d) := by
  unfold addNote
  rw [hfind]
  dsimp only
  rw [if_neg (by simp [hex])]
  rfl

/-- Unfolding of the remove branch of `addNote`. -/
theorem addNote_tracks_remove (trackId : String) (step : Nat)
    (pitch : String) (d : NoteDuration) (s : OrchestraState) (t₀ : Track)
    (hfind : s.tracks.find? (fun t => t.id == trackId) = some t₀)
    (hex : t₀.notes.any (keyMatches step pitch) = true) :
    (addNote trackId step pitch d s).tracks =
      s.tracks.map (remNote trackId step pitch) := by
  unfold addNote
  rw [hfind]
  dsimp only
  rw [if_pos (by simp [hex])]
  rfl

/-- The insert transformation does not change a track's id. -/
theorem insNote_pred (trackId : String) (step : Nat) (pitch : String)
    (d : NoteDuration) (a : Track) :
    ((insNote trackId step pitch d a).id == trackId) = (a.id == trackId) := by
  unfold insNote
  by_cases h : (a.id == trackId) = true <;> simp [h]

/-- The remove transformation does not change a track's id. -/
theorem remNote_pred (trackId : String) (step : Nat) (pitch : String)
    (a : Track) :
    ((remNote trackId step pitch a).id == trackId) = (a.id == trackId) := by
  unfold remNote
  by_cases h : (a.id == trackId) = true <;> simp [h]

/-- On an unrelated track both branch transformations are the
identity. -/
theorem toggle_comp_other (trackId : String) (step : Nat) (pitch : String)
    (d : NoteDuration) (a : Track) (hida : ¬((a.id == trackId) = true)) :
    remNote trackId step pitch (insNote trackId step pitch d a) = a ∧
    insNote trackId step pitch d (remNote trackId step pitch a) = a := by
  unfold remNote insNote
  have h2 : (a.id == trackId) = false := by simpa using hida
  simp [h2]

/-- Filtering a predicate out leaves nothing satisfying it. -/
theorem any_filter_not (p : Note → Bool) (l : List Note) :
    (l.filter (fun n => !p n)).any p = false := by
  rw [List.any_eq_false]
  intro x hx
  have h2 := (List.mem_filter.mp hx).2
  simp only [Bool.not_eq_true'] at h2
  simp [h2]

/-- C3 — corrected.  Toggling the same `(trackId, step, pitch,
duration)` twice restores every track's note multiset — each track in
the result is field-for-field the original with a permutation of the
original notes — provided track ids are pairwise distinct, at most one
note of the track matches `(step, pitch)` (the no-duplicate
invariant), and any matching note carries exactly the toggled
duration.  Without the duration proviso the claim fails: the second
toggle re-inserts the note with the passed-in duration, not the
original one (see the counterexample). -/
theorem toggle_twice_restores :
    ∀ (s : OrchestraState) (trackId : String) (step : Nat) (pitch : String)
      (d : NoteDuration) (t₀ : Track),
      (s.tracks.map Track.id).Nodup →
      s.tracks.find? (fun t => t.id == trackId) = some t₀ →
      (t₀.notes.filter (keyMatches step pitch)).length ≤ 1 →
      (∀ n ∈ t₀.notes, keyMatches step pitch n = true →
        n = { step := step, pitch := pitch, duration := some d }) →
      List.Forall₂ (fun a b => a.id = b.id ∧ a.instrument = b.instrument ∧
          a.volume = b.volume ∧ a.muted = b.muted ∧ List.Perm a.notes b.notes)
        s.tracks
        (addNote trackId step pitch d (addNote trackId step pitch d s)).tracks := by
  intro s trackId step pitch d t₀ hnd hfind hone hdur
  have hp0 : (t₀.id == trackId) = true := by
    have h := List.find?_some hfind
    simpa using h
  cases hex : t₀.notes.any (keyMatches step pitch) with
  | false =>
    have h1 := addNote_tracks_insert trackId step pitch d s t₀ hfind hex
    have h2 : (addNote trackId step pitch d s).tracks.find?
        (fun t => t.id == trackId) = some (insNote trackId step pitch d t₀) := by
      rw [h1, find?_map_pred _ _ (insNote_pred trackId step pitch d), hfind]
      rfl
    have hIns : insNote trackId step pitch d t₀ =
        { t₀ with notes := t₀.notes ++ [{ step := step, pitch := pitch, duration := some d }] } := by
      unfold insNote
      rw [if_pos hp0]
    have hex2 : (insNote trackId step pitch d t₀).notes.any
        (keyMatches step pitch) = true := by
      rw [hIns]
      simp [keyMatches]
    have h3 := addNote_tracks_remove trackId step pitch d
      (addNote trackId step pitch d s) _ h2 hex2
    rw [h3, h1, List.map_map]
    apply forall₂_map_self
    intro a ha
    by_cases hida : (a.id == trackId) = true
    · have haeq : a = t₀ :=
        eq_find?_of_nodup_ids trackId t₀ s.tracks hnd hfind a ha hida
      subst haeq
      have hcomp : (remNote trackId step pitch ∘ insNote trackId step pitch d) a = a := by
        simp only [Function.comp_apply]
        rw [hIns]
        unfold remNote
        rw [if_pos (show (({ a with notes := a.notes ++ [{ step := step, pitch := pitch, duration := some d }] } : Track).id == trackId) = true from hp0)]
        have hflt := toggle_insert_then_remove step pitch d a.notes hex
        exact congrArg (fun ns => ({ a with notes := ns } : Track)) hflt
      rw [hcomp]
      exact ⟨rfl, rfl, rfl, rfl, List.Perm.refl _⟩
    · rw [Function.comp_apply,
        (toggle_comp_other trackId step pitch d a hida).1]
      exact ⟨rfl, rfl, rfl, rfl, List.Perm.refl _⟩
  | true =>
    have h1 := addNote_tracks_remove trackId step pitch d s t₀ hfind hex
    have h2 : (addNote trackId step pitch d s).tracks.find?
        (fun t => t.id == trackId) = some (remNote trackId step pitch t₀) := by
      rw [h1, find?_map_pred _ _ (remNote_pred trackId step pitch), hfind]
      rfl
    have hRem : remNote trackId step pitch t₀ =
        { t₀ with notes := t₀.notes.filter (fun n => !keyMatches step pitch n) } := by
      unfold remNote
      rw [if_pos hp0]
    have hex2 : (remNote trackId step pitch t₀).notes.any
        (keyMatches step pitch) = false := by
      rw [hRem]
      exact any_filter_not _ _
    have h3 := addNote_tracks_insert trackId step pitch d
      (addNote trackId step pitch d s) _ h2 hex2
    rw [h3, h1, List.map_map]
    apply forall₂_map_self
    intro a ha
    by_cases hida : (a.id == trackId) = true
    · have haeq : a = t₀ :=
        eq_find?_of_nodup_ids trackId t₀ s.tracks hnd hfind a ha hida
      subst haeq
      have hcomp : (insNote trackId step pitch d ∘ remNote trackId step pitch) a =
          { a with notes := a.notes.filter (fun n => !keyMatches step pitch n) ++ [{ step := step, pitch := pitch, duration := some d }] } := by
        simp only [Function.comp_apply]
        rw [hRem]
        unfold insNote
        rw [if_pos (show (({ a with notes := a.notes.filter (fun n => !keyMatches step pitch n) } : Track).id == trackId) = true from hp0)]
      rw [hcomp]
      exact ⟨rfl, rfl, rfl, rfl,
        (toggle_remove_then_insert step pitch d a.notes hex hone hdur).symm⟩
    · rw [Function.comp_apply,
        (toggle_comp_other trackId step pitch d a hida).2]
      exact ⟨rfl, rfl, rfl, rfl, List.Perm.refl _⟩

/-- Concrete single-track state used to witness the toggle property:
track "1" already holds the note `(0, "C4", quarter)`. -/
def toggleWitnessTrack : Track where
  id := "1"
  instrument := "piano"
  notes := [{ step := 0, pitch := "C4", duration := some .quarter }]
  volume := 0
  muted := false

/-- C3 — witness for `toggle_twice_restores`: toggling `(0, "C4",
quarter)` twice on a track that holds exactly that note permutes its
note list back to itself. -/
theorem toggle_twice_restores_witness :
    List.Forall₂ (fun a b => a.id = b.id ∧ a.instrument = b.instrument ∧
        a.volume = b.volume ∧ a.muted = b.muted ∧ List.Perm a.notes b.notes)
      ({ initialState with tracks := [toggleWitnessTrack] } :
        OrchestraState).tracks
      (addNote "1" 0 "C4" .quarter (addNote "1" 0 "C4" .quarter
        { initialState with tracks := [toggleWitnessTrack] })).tracks :=
  toggle_twice_restores
    { initialState with tracks := [toggleWitnessTrack] }
    "1" 0 "C4" .quarter toggleWitnessTrack
    (by decide) (by decide) (by decide) (by decide)

/-- Concrete single-track state whose note has a different duration
than the one that will be toggled. -/
def wholeNoteTrack : Track where
  id := "1"
  instrument := "piano"
  notes := [{ step := 0, pitch := "C4", duration := some .whole }]
  volume := 0
  muted := false

/-- C3 — counterexample to the claim as stated: track "1" holds the
note `(0, "C4", whole)`; toggling `(0, "C4", quarter)` twice removes
the whole note and re-inserts a quarter note, so the note set is not
restored. -/
theorem toggle_twice_changes_duration_cex :
    (addNote "1" 0 "C4" .quarter (addNote "1" 0 "C4" .quarter
      { initialState with tracks := [wholeNoteTrack] })).tracks.map Track.notes =
      [[{ step := 0, pitch := "C4", duration := some .quarter }]] ∧
    (addNote "1" 0 "C4" .quarter (addNote "1" 0 "C4" .quarter
      { initialState with tracks := [wholeNoteTrack] })).tracks ≠
      [wholeNoteTrack] := by
  decide
/-- Ordered coherence of equal-id tracks: a later track with the same
id (as produced by the id-reuse of `addTrack`) never holds a note key
the earlier one lacks.  This is the strengthening that makes the
no-duplicate-notes invariant inductive, because `addNote` decides its
branch by the first track with the toggled id but applies it to every
track with that id. -/
def TrackKeySub (a b : Track) : Prop :=
  a.id = b.id → ∀ k, k ∈ b.notes.map noteKey → k ∈ a.notes.map noteKey

/-- The inductive invariant on a track list: every track's note keys
are pairwise distinct, and equal-id tracks are ordered by key
inclusion. -/
def TracksInv (l : List Track) : Prop :=
  (∀ t ∈ l, NoDupNotes t) ∧ l.Pairwise TrackKeySub

/-- `insNote` never changes a track's id. -/
theorem insNote_id (trackId : String) (step : Nat) (pitch : String)
    (d : NoteDuration) (t : Track) :
    (insNote trackId step pitch d t).id = t.id := by
  unfold insNote
  by_cases h : (t.id == trackId) = true <;> simp [h]

/-- `remNote` never changes a track's id. -/
theorem remNote_id (trackId : String) (step : Nat) (pitch : String)
    (t : Track) :
    (remNote trackId step pitch t).id = t.id := by
  unfold remNote
  by_cases h : (t.id == trackId) = true <;> simp [h]

/-- Every track matching the id located by `find?` has its note keys
inside those of the located track, by the ordered-coherence
invariant. -/
theorem keys_sub_of_find? (tid : String) (t₀ : Track) :
    ∀ l : List Track, l.Pairwise TrackKeySub →
      l.find? (fun t => t.id == tid) = some t₀ →
      ∀ a ∈ l, (a.id == tid) = true →
      ∀ k, k ∈ a.notes.map noteKey → k ∈ t₀.notes.map noteKey := by
  intro l
  induction l with
  | nil => intro _ hfind; simp at hfind
  | cons b bs ih =>
    intro hpw hfind a ha hida k hk
    have hpw2 := List.pairwise_cons.mp hpw
    cases hb : (b.id == tid) with
    | true =>
      have hb0 : b = t₀ := by
        simp only [List.find?_cons, hb] at hfind
        exact Option.some.inj hfind
      rcases List.mem_cons.mp ha with rfl | hmem
      · rw [← hb0]
        exact hk
      · have hid2 : b.id = a.id := by
          have h1 : b.id = tid := by simpa using hb
          have h2 : a.id = tid := by simpa using hida
          rw [h1, h2]
        rw [← hb0]
        exact hpw2.1 a hmem hid2 k hk
    | false =>
      simp only [List.find?_cons, hb] at hfind
      rcases List.mem_cons.mp ha with rfl | hmem
      · rw [hb] at hida
        exact absurd hida (by simp)
      · exact ih hpw2.2 hfind a hmem hida k hk

/-- The invariant survives a map that changes neither ids nor notes. -/
theorem tracksInv_map_notes_eq (f : Track → Track)
    (hid : ∀ t, (f t).id = t.id) (hnotes : ∀ t, (f t).notes = t.notes)
    (l : List Track) (h : TracksInv l) : TracksInv (l.map f) := by
  constructor
  · intro t' ht'
    obtain ⟨a, ha, rfl⟩ := List.mem_map.mp ht'
    unfold NoDupNotes
    rw [hnotes a]
    exact h.1 a ha
  · rw [List.pairwise_map]
    refine List.Pairwise.imp ?_ h.2
    intro a b hab hid' k hk
    rw [hnotes b] at hk
    rw [hnotes a]
    rw [hid a, hid b] at hid'
    exact hab hid' k hk

/-- The invariant survives `clearTrack`'s per-track transformation. -/
theorem tracksInv_clear (tid : String) (l : List Track)
    (h : TracksInv l) :
    TracksInv (l.map (fun t => if t.id == tid then { t with notes := [] } else t)) := by
  constructor
  · intro t' ht'
    obtain ⟨a, ha, rfl⟩ := List.mem_map.mp ht'
    by_cases hida : (a.id == tid) = true
    · rw [if_pos hida]
      unfold NoDupNotes
      simp
    · rw [if_neg hida]
      exact h.1 a ha
  · rw [List.pairwise_map]
    refine List.Pairwise.imp ?_ h.2
    intro a b hab hid' k hk
    by_cases hbid : (b.id == tid) = true
    · rw [if_pos hbid] at hk
      simp at hk
    · have hid2 : a.id = b.id := by
        have h1 : (if a.id == tid then { a with notes := ([] : List Note) } else a).id = a.id := by
          by_cases h2 : (a.id == tid) = true <;> simp [h2]
        have h3 : (if b.id == tid then { b with notes := ([] : List Note) } else b).id = b.id := by
          by_cases h2 : (b.id == tid) = true <;> simp [h2]
        rw [h1, h3] at hid'
        exact hid'
      have haid : (a.id == tid) = false := by
        have hb2 : (b.id == tid) = false := by simpa using hbid
        rw [hid2]
        exact hb2
      rw [if_neg hbid] at hk
      rw [if_neg (by simp [haid])]
      exact hab hid2 k hk

/-- The invariant survives appending a track with no notes. -/
theorem tracksInv_append_empty (l : List Track) (newT : Track)
    (hnew : newT.notes = []) (h : TracksInv l) :
    TracksInv (l ++ [newT]) := by
  constructor
  · intro t' ht'
    rcases List.mem_append.mp ht' with hmem | hmem
    · exact h.1 t' hmem
    · have : t' = newT := by simpa using hmem
      rw [this]
      unfold NoDupNotes
      rw [hnew]
      simp
  · rw [List.pairwise_append]
    refine ⟨h.2, by simp, ?_⟩
    intro a _ b hb
    have hbn : b = newT := by simpa using hb
    intro _ k hk
    rw [hbn, hnew] at hk
    simp at hk

/-- The invariant survives filtering the track list. -/
theorem tracksInv_filter (q : Track → Bool) (l : List Track)
    (h : TracksInv l) : TracksInv (l.filter q) := by
  constructor
  · intro t' ht'
    exact h.1 t' (List.mem_filter.mp ht').1
  · exact h.2.sublist (List.filter_sublist l)

/-- The invariant survives the insert branch of `addNote`: the branch
is taken only when the first track with the toggled id lacks the key,
and by ordered coherence every other track with that id lacks it
too. -/
theorem tracksInv_insNote (tid : String) (st : Nat) (p : String)
    (d : NoteDuration) (l : List Track) (t₀ : Track)
    (hf : l.find? (fun t => t.id == tid) = some t₀)
    (hex : t₀.notes.any (keyMatches st p) = false)
    (h : TracksInv l) : TracksInv (l.map (insNote tid st p d)) := by
  have hk0 : (st, p) ∉ t₀.notes.map noteKey := by
    intro hmem
    obtain ⟨n, hn, hkey⟩ := List.mem_map.mp hmem
    have hfalse := List.any_eq_false.mp hex n hn
    exact hfalse ((keyMatches_iff st p n).mpr hkey)
  constructor
  · intro t' ht'
    obtain ⟨a, ha, rfl⟩ := List.mem_map.mp ht'
    unfold insNote
    by_cases hida : (a.id == tid) = true
    · rw [if_pos hida]
      unfold NoDupNotes
      dsimp only
      rw [List.map_append, List.nodup_append]
      refine ⟨h.1 a ha, by simp, ?_⟩
      intro k hka hkb
      have hkeq : k = (st, p) := by simpa [noteKey] using hkb
      have hsub := keys_sub_of_find? tid t₀ l h.2 hf a ha hida k hka
      rw [hkeq] at hsub
      exact hk0 hsub
    · rw [if_neg hida]
      exact h.1 a ha
  · rw [List.pairwise_map]
    refine List.Pairwise.imp ?_ h.2
    intro a b hab hid' k hk
    rw [insNote_id, insNote_id] at hid'
    unfold insNote at hk ⊢
    by_cases hbid : (b.id == tid) = true
    · have haid : (a.id == tid) = true := by
        have hb2 : b.id = tid := by simpa using hbid
        simp [hid', hb2]
      rw [if_pos hbid] at hk
      rw [if_pos haid]
      dsimp only at hk ⊢
      rw [List.map_append] at hk ⊢
      rcases List.mem_append.mp hk with hkb | hknew
      · exact List.mem_append.mpr (Or.inl (hab hid' k hkb))
      · exact List.mem_append.mpr (Or.inr hknew)
    · have haid : (a.id == tid) = false := by
        have hb2 : ¬ b.id = tid := by simpa using hbid
        simp [hid', hb2]
      rw [if_neg hbid] at hk
      rw [if_neg (by simp [haid])]
      exact hab hid' k hk

/-- The invariant survives the remove branch of `addNote`: filtering
notes preserves key distinctness, and because the removal predicate
depends only on the `(step, pitch)` key, key inclusion between
equal-id tracks survives the filter. -/
theorem tracksInv_remNote (tid : String) (st : Nat) (p : String)
    (l : List Track) (h : TracksInv l) :
    TracksInv (l.map (remNote tid st p)) := by
  constructor
  · intro t' ht'
    obtain ⟨a, ha, rfl⟩ := List.mem_map.mp ht'
    unfold remNote
    by_cases hida : (a.id == tid) = true
    · rw [if_pos hida]
      unfold NoDupNotes
      dsimp only
      exact List.Nodup.sublist
        (List.Sublist.map noteKey (List.filter_sublist a.notes)) (h.1 a ha)
    · rw [if_neg hida]
      exact h.1 a ha
  · rw [List.pairwise_map]
    refine List.Pairwise.imp ?_ h.2
    intro a b hab hid' k hk
    rw [remNote_id, remNote_id] at hid'
    unfold remNote at hk ⊢
    by_cases hbid : (b.id == tid) = true
    · have haid : (a.id == tid) = true := by
        have hb2 : b.id = tid := by simpa using hbid
        simp [hid', hb2]
      rw [if_pos hbid] at hk
      rw [if_pos haid]
      dsimp only at hk ⊢
      obtain ⟨n, hn, hkey⟩ := List.mem_map.mp hk
      have hn2 := List.mem_filter.mp hn
      have hkA : k ∈ a.notes.map noteKey :=
        hab hid' k (List.mem_map.mpr ⟨n, hn2.1, hkey⟩)
      obtain ⟨n2, hn2a, hkey2⟩ := List.mem_map.mp hkA
      have hnp : ¬ keyMatches st p n = true := by simpa using hn2.2
      have hnp2 : ¬ keyMatches st p n2 = true := by
        intro hcon
        apply hnp
        apply (keyMatches_iff st p n).mpr
        rw [hkey, ← hkey2]
        exact (keyMatches_iff st p n2).mp hcon
      exact List.mem_map.mpr
        ⟨n2, List.mem_filter.mpr ⟨hn2a, by simpa using hnp2⟩, hkey2⟩
    · have haid : (a.id == tid) = false := by
        have hb2 : ¬ b.id = tid := by simpa using hbid
        simp [hid', hb2]
      rw [if_neg hbid] at hk
      rw [if_neg (by simp [haid])]
      exact hab hid' k hk

/-- Track list of `updateTrackInstrument`: only the instrument field
of the addressed track changes. -/
theorem updateTrackInstrument_tracks (id instrument : String)
    (s : OrchestraState) :
    (updateTrackInstrument id instrument s).tracks =
      s.tracks.map (fun t =>
        if t.id == id then { t with instrument := instrument } else t) := by
  unfold updateTrackInstrument
  exact congrArg
    (List.map (fun t =>
      if t.id == id then { t with instrument := instrument } else t))
    (disposeSynthEntry_tracks id s).1

/-- Every track/note mutation operation preserves the inductive
invariant on the track list. -/
theorem applyOp_tracksInv (o : Op) (s : OrchestraState)
    (h : TracksInv s.tracks) : TracksInv (applyOp o s).tracks := by
  cases o with
  | opAddNote tid st p d =>
    dsimp only [applyOp]
    cases hf : s.tracks.find? (fun t => t.id == tid) with
    | none =>
      have hsame : addNote tid st p d s = s := by
        unfold addNote
        rw [hf]
      rw [hsame]
      exact h
    | some t₀ =>
      cases hex : t₀.notes.any (keyMatches st p) with
      | false =>
        rw [addNote_tracks_insert tid st p d s t₀ hf hex]
        exact tracksInv_insNote tid st p d s.tracks t₀ hf hex h
      | true =>
        rw [addNote_tracks_remove tid st p d s t₀ hf hex]
        exact tracksInv_remNote tid st p s.tracks h
  | opAddTrack =>
    dsimp only [applyOp]
    exact tracksInv_append_empty s.tracks _ rfl h
  | opRemoveTrack id =>
    dsimp only [applyOp]
    by_cases hlen : s.tracks.length ≤ 1
    · have hsame : removeTrack id s = s := by
        unfold removeTrack
        rw [if_pos hlen]
      rw [hsame]
      exact h
    · rw [removeTrack_tracks id s hlen]
      exact tracksInv_filter _ s.tracks h
  | opClearTrack id =>
    dsimp only [applyOp]
    exact tracksInv_clear id s.tracks h
  | opSetInstrument id instrument =>
    dsimp only [applyOp]
    rw [updateTrackInstrument_tracks id instrument s]
    refine tracksInv_map_notes_eq _ ?_ ?_ s.tracks h
    · intro t
      by_cases h2 : (t.id == id) = true <;> simp [h2]
    · intro t
      by_cases h2 : (t.id == id) = true <;> simp [h2]
  | opSetVolume id v =>
    dsimp only [applyOp]
    refine tracksInv_map_notes_eq _ ?_ ?_ s.tracks h
    · intro t
      by_cases h2 : (t.id == id) = true <;> simp [h2]
    · intro t
      by_cases h2 : (t.id == id) = true <;> simp [h2]
  | opToggleMute id =>
    dsimp only [applyOp]
    refine tracksInv_map_notes_eq _ ?_ ?_ s.tracks h
    · intro t
      by_cases h2 : (t.id == id) = true <;> simp [h2]
    · intro t
      by_cases h2 : (t.id == id) = true <;> simp [h2]

/-- Every reachable state satisfies the inductive invariant. -/
theorem reachable_tracksInv (s : OrchestraState) (h : Reachable s) :
    TracksInv s.tracks := by
  induction h with
  | init =>
    refine ⟨?_, ?_⟩
    · intro t ht
      have ht2 : t = { id := "1", instrument := "piano", notes := [], volume := 0, muted := false } := by
        simpa [initialState] using ht
      rw [ht2]
      unfold NoDupNotes
      simp
    · exact List.Pairwise.cons
        (fun b hb => absurd hb (List.not_mem_nil b)) List.Pairwise.nil
  | step o hr ih => exact applyOp_tracksInv o _ ih

/-- C4 — confirmed.  In every state reachable from the initial
one-track state by the track/note mutation operations (note toggle,
add/remove/clear track, instrument/volume/mute changes), no track's
note list contains two notes with the same `(step, pitch)` key. -/
theorem reachable_no_dup_notes :
    ∀ s : OrchestraState, Reachable s → NoDupNotesInv s := by
  intro s h t ht
  exact (reachable_tracksInv s h).1 t ht

/-- C4 — witness for `reachable_no_dup_notes`: the state reached by
adding a track and toggling a note satisfies the invariant. -/
theorem reachable_no_dup_notes_witness :
    NoDupNotesInv (applyOp (Op.opAddNote "1" 0 "C4" NoteDuration.quarter)
      (applyOp Op.opAddTrack initialState)) :=
  reachable_no_dup_notes _
    (Reachable.step (Op.opAddNote "1" 0 "C4" NoteDuration.quarter)
      (Reachable.step Op.opAddTrack Reachable.init))

/-- C7 — corrected.  The requested sounding length of a triggered note
depends only on its duration value: whole maps to 4 beats, half to 2,
quarter to 1, eighth to 1/2, sixteenth to 1/4 — but a note whose
duration is unspecified falls into the switch's default arm and is
played as an eighth (1/2 beat), not as the quarter-note default. -/
theorem duration_mapping :
    toneBeats (durationToTone (some .whole)) = 4 ∧
    toneBeats (durationToTone (some .half)) = 2 ∧
    toneBeats (durationToTone (some .quarter)) = 1 ∧
    toneBeats (durationToTone (some .eighth)) = 1 / 2 ∧
    toneBeats (durationToTone (some .sixteenth)) = 1 / 4 ∧
    toneBeats (durationToTone none) = 1 / 2 := by
  refine ⟨?_, ?_, ?_, ?_, ?_, ?_⟩
  · show toneBeats "1n" = 4
    unfold toneBeats
    rw [if_pos rfl]
  · show toneBeats "2n" = 2
    unfold toneBeats
    rw [if_neg (by decide), if_pos rfl]
  · show toneBeats "4n" = 1
    unfold toneBeats
    rw [if_neg (by decide), if_neg (by decide), if_pos rfl]
  · show toneBeats "8n" = 1 / 2
    unfold toneBeats
    rw [if_neg (by decide), if_neg (by decide), if_neg (by decide), if_pos rfl]
  · show toneBeats "16n" = 1 / 4
    unfold toneBeats
    rw [if_neg (by decide), if_neg (by decide), if_neg (by decide),
      if_neg (by decide), if_pos rfl]
  · show toneBeats "8n" = 1 / 2
    unfold toneBeats
    rw [if_neg (by decide), if_neg (by decide), if_neg (by decide), if_pos rfl]

/-- C7 — counterexample to the claim as stated: an unspecified
duration is not played with the quarter-note length of 1 beat. -/
theorem duration_default_cex :
    toneBeats (durationToTone none) ≠ 1 ∧
    durationToTone none = "8n" := by
  refine ⟨?_, rfl⟩
  have h8 : toneBeats (durationToTone none) = 1 / 2 := by
    show toneBeats "8n" = 1 / 2
    unfold toneBeats
    rw [if_neg (by decide), if_neg (by decide), if_neg (by decide), if_pos rfl]
  rw [h8]
  norm_num

/-- C8 — confirmed.  The instrument switch is a total mapping with a
catch-all default arm: every instrument identifier outside the listed
case labels (for example "bass") gets the same voice family as the
generic polyphonic default used for piano; and after
`updateTrackInstrument` the registry always holds a voice of the
mapped family for the track id, so allocation never fails. -/
theorem instrument_family_total :
    (∀ instrument : String, instrument ∉ listedInstruments →
      instrumentSynthFamily instrument = VoiceFamily.synth) ∧
    instrumentSynthFamily "piano" = VoiceFamily.synth ∧
    instrumentSynthFamily "bass" = VoiceFamily.synth ∧
    (∀ (id instrument : String) (s : OrchestraState),
      ∃ v : Voice,
        findSynth (updateTrackInstrument id instrument s).synths id = some v ∧
        v.family = instrumentSynthFamily instrument) := by
  refine ⟨?_, by decide, by decide, ?_⟩
  · intro instrument h
    have h1 : instrument ∉ keyboardInstruments := fun hm =>
      h (by simp [listedInstruments, hm])
    have h2 : instrument ∉ stringInstruments := fun hm =>
      h (by simp [listedInstruments, hm])
    have h3 : instrument ∉ woodwindInstruments := fun hm =>
      h (by simp [listedInstruments, hm])
    have h4 : instrument ∉ brassInstruments := fun hm =>
      h (by simp [listedInstruments, hm])
    have h5 : instrument ∉ percussionInstruments := fun hm =>
      h (by simp [listedInstruments, hm])
    simp [instrumentSynthFamily, h1, h2, h3, h4, h5]
  · intro id instrument s
    simp only [updateTrackInstrument]
    exact ⟨_, findSynth_setSynth _ _ _, rfl⟩

/-- C8 — witness for `instrument_family_total`: "bass" is not a listed
case label, and changing the only track's instrument to "bass"
registers a generic polyphonic voice for it. -/
theorem instrument_family_total_witness :
    instrumentSynthFamily "bass" = VoiceFamily.synth ∧
    ∃ v : Voice,
      findSynth (updateTrackInstrument "1" "bass" initialState).synths "1" =
        some v ∧ v.family = instrumentSynthFamily "bass" :=
  ⟨instrument_family_total.1 "bass" (by decide),
    instrument_family_total.2.2.2 "1" "bass" initialState⟩

end Orchestra

namespace MusicUtils

/-- C10 — confirmed.  Converting a MIDI number in 0..127 to a note
name and back is the identity, and any string in which the pitch-name
pattern does not match anywhere yields 60 (middle C) rather than a
failure. -/
theorem midi_note_roundtrip :
    (∀ m : Nat, m ≤ 127 →
      noteNameToMidi (midiToNoteName m) = some (m : Int)) ∧
    (∀ s : String, findPitchMatch s.data = none →
      noteNameToMidi s = some 60) := by
  constructor
  · decide
  · intro s h
    simp only [noteNameToMidi, h]

/-- C10 — witness for `midi_note_roundtrip`: middle C (60) round-trips
through "C4", and the non-matching string "hello" maps to 60. -/
theorem midi_note_roundtrip_witness :
    noteNameToMidi (midiToNoteName 60) = some 60 ∧
    noteNameToMidi "hello" = some 60 :=
  ⟨midi_note_roundtrip.1 60 (by decide),
    midi_note_roundtrip.2 "hello" (by decide)⟩

end MusicUtils
